import Mathlib

/-!
Verification of the claude-code-proxy translation logic (main.go).

The development shallowly embeds the pure request/response translation
core of the proxy: the model normalizer, the prompt assembler, the
non-streaming response construction, the streaming event loop that turns
the backend event stream into SSE chunks, and the handler dispatch with
its authentication check.  Side effects (HTTP transport, subprocess
spawning, logging, timestamps) are factored out as explicit parameters;
the functions below compute exactly the values the Go code writes.
-/

/-! ## Go string primitives

The Go standard library functions used by main.go, modelled on the
character-list representation of strings.  strings.ToLower and
strings.TrimSpace are modelled on their ASCII/Latin-1 behaviour (the
model-name and header domain of this program); mappings of code points
outside that range are the identity here.
-/

/-- Go unicode.IsSpace restricted to the Latin-1 range: space, tab,
newline, vertical tab, form feed, carriage return, NEL, NBSP. -/
def goIsSpace (c : Char) : Bool :=
  c = ' ' || c = '\t' || c = '\n' || c.toNat = 11 || c.toNat = 12 ||
  c = '\r' || c.toNat = 133 || c.toNat = 160

/-- Go strings.ToLower on one character, ASCII range. -/
def goToLowerChar (c : Char) : Char :=
  if 65 ≤ c.toNat ∧ c.toNat ≤ 90 then Char.ofNat (c.toNat + 32) else c

/-- Go strings.ToLower (ASCII range). -/
def goToLower (s : String) : String :=
  ⟨s.data.map goToLowerChar⟩

/-- Go strings.TrimSpace: drop leading and trailing whitespace. -/
def goTrimSpace (s : String) : String :=
  ⟨((s.data.dropWhile goIsSpace).reverse.dropWhile goIsSpace).reverse⟩

/-- Go strings.HasPrefix. -/
def goHasPref (s p : String) : Bool :=
  p.data.isPrefixOf s.data

/-- Go strings.TrimPrefix: remove the prefix if present, else return
the string unchanged. -/
def goTrimPref (s p : String) : String :=
  if goHasPref s p then ⟨s.data.drop p.data.length⟩ else s

/-- The UTF-8 byte length of one character. -/
def charUtf8Len (c : Char) : Nat :=
  if c.toNat < 128 then 1
  else if c.toNat < 2048 then 2
  else if c.toNat < 65536 then 3
  else 4

/-- Go len on a string: its UTF-8 byte count. -/
def goLen (s : String) : Nat :=
  s.data.foldl (fun n c => n + charUtf8Len c) 0

/-! ## Data model (the Go structs of main.go) -/

/-- Message: one role-tagged chat message. -/
structure Msg where
  role : String
  content : String
deriving DecidableEq, Repr

/-- ChatRequest: the parsed JSON body of a chat-completions call. -/
structure ChatRequest where
  model : String
  messages : List Msg
  stream : Bool
deriving DecidableEq, Repr

/-- Delta: the partial-message payload of a streaming chunk. -/
structure Delta where
  role : String
  content : String
deriving DecidableEq, Repr

/-- Usage: the token-estimate triple. -/
structure Usage where
  promptTokens : Nat
  completionTokens : Nat
  totalTokens : Nat
deriving DecidableEq, Repr

/-- Choice: one response choice.  The Go struct carries a value Message
(zero value when unset) and a nullable Delta pointer, modelled as
Option. -/
structure Choice where
  index : Nat
  message : Msg
  delta : Option Delta
  finishReason : String
deriving DecidableEq, Repr

/-- ChatResponse: a full completion object or one streaming chunk
(distinguished by the object field, as in the Go code). -/
structure ChatResponse where
  id : String
  object : String
  created : Int
  model : String
  choices : List Choice
  usage : Usage
deriving DecidableEq, Repr

/-- The delta of the first choice of a chunk (every chunk the code
builds has exactly one choice); the zero Delta when absent. -/
def deltaOf (c : ChatResponse) : Delta :=
  match c.choices with
  | ch :: _ => ch.delta.getD ⟨"", ""⟩
  | [] => ⟨"", ""⟩

/-- The finish_reason of the first choice of a response. -/
def finishOf (c : ChatResponse) : String :=
  match c.choices with
  | ch :: _ => ch.finishReason
  | [] => ""

/-! ## Model Normalizer (normalizeModel, main.go lines 92 to 108) -/

/-- normalizeModel: lower-case and trim, strip the two vendor prefix
spellings, then first prefix match against haiku, sonnet, opus (the
range loop unrolled over its literal list); empty input falls back to
the literal sonnet; otherwise pass the string through. -/
def normalizeModel (m : String) : String :=
  let m1 := goToLower (goTrimSpace m)
  let m2 := goTrimPref (goTrimPref m1 "claude-") "claude_"
  if goHasPref m2 "haiku" = true then "haiku"
  else if goHasPref m2 "sonnet" = true then "sonnet"
  else if goHasPref m2 "opus" = true then "opus"
  else if m2 = "" then "sonnet"
  else m2

/-- The model decision of handleChat (main.go lines 199 to 202): use
the normalized request model, substituting the configured default when
the normalized value is empty. -/
def decideModel (reqModel defaultModel : String) : String :=
  let r := normalizeModel reqModel
  if r = "" then defaultModel else r

/-! ## Prompt Assembler (handleChat, main.go lines 176 to 194) -/

/-- One step of the message loop of handleChat: system content goes to
the system builder, preceded by a blank line when the builder already
holds text (Len greater than zero); user content goes to the body
builder followed by a newline; assistant content goes to the body
builder wrapped in the bracketed previous-response marker; every other
role is ignored.  The accumulator is (systemText, bodyText). -/
def assembleStep (acc : String × String) (msg : Msg) : String × String :=
  if msg.role = "system" then
    (if acc.1 = "" then acc.1 ++ msg.content
     else acc.1 ++ "\n\n" ++ msg.content, acc.2)
  else if msg.role = "user" then
    (acc.1, acc.2 ++ msg.content ++ "\n")
  else if msg.role = "assistant" then
    (acc.1, acc.2 ++ "[Previous response: " ++ msg.content ++ "]\n")
  else acc

/-- assemblePrompt: fold the message list through assembleStep from two
empty builders, as the for loop in handleChat does. -/
def assemblePrompt (msgs : List Msg) : String × String :=
  msgs.foldl assembleStep ("", "")

/-! ## Non-Streaming Invoker (handleNonStreamingRequest, main.go
lines 211 to 264)

The success path after cmd.Output returned without error, as a pure
function of the assembled prompt, the model, the captured standard
output, and the two clock readings the code takes. -/

/-- handleNonStreamingRequest on process success: trim the captured
output, build the single-choice response and the usage estimate. -/
def handleNonStreamingRequest (systemPrompt userPrompt model output : String)
    (nowNano nowUnix : Int) : ChatResponse :=
  let response := goTrimSpace output
  let totalPrompt := goLen systemPrompt + goLen userPrompt
  ⟨"chatcmpl-" ++ toString nowNano, "chat.completion", nowUnix, model,
   [⟨0, ⟨"assistant", response⟩, none, "stop"⟩],
   ⟨totalPrompt / 4, goLen response / 4,
    (totalPrompt + goLen response) / 4⟩⟩

/-! ## Streaming Invoker (handleStreamingRequest, main.go lines 266
to 408)

One backend line is abstracted as a StreamEvent: a line that fails to
parse, is empty, has a type other than assistant or result, or lacks
the probed fields behaves identically to the other constructor (the
loop skips it).  An assistant event carries the list of text fields of
its content items; an item whose text field is absent behaves exactly
like an empty text and is covered by the empty string.  A result event
carries its result string; a result field that is absent or not a
string behaves like the other constructor and is covered by it. -/

inductive StreamEvent where
  | assistant (fragments : List String)
  | result (payload : String)
  | other
deriving DecidableEq, Repr

/-- The role-only chunk sent before the first content chunk. -/
def roleChunk (i : String) (cr : Int) (m : String) : ChatResponse :=
  ⟨i, "chat.completion.chunk", cr, m,
   [⟨0, ⟨"", ""⟩, some ⟨"assistant", ""⟩, ""⟩], ⟨0, 0, 0⟩⟩

/-- A content chunk for one text fragment. -/
def contentChunk (i : String) (cr : Int) (m : String) (text : String) : ChatResponse :=
  ⟨i, "chat.completion.chunk", cr, m,
   [⟨0, ⟨"", ""⟩, some ⟨"", text⟩, ""⟩], ⟨0, 0, 0⟩⟩

/-- The fallback chunk carrying both role and the full result. -/
def fallbackChunk (i : String) (cr : Int) (m : String) (result : String) : ChatResponse :=
  ⟨i, "chat.completion.chunk", cr, m,
   [⟨0, ⟨"", ""⟩, some ⟨"assistant", result⟩, ""⟩], ⟨0, 0, 0⟩⟩

/-- The terminal chunk with the empty delta and finish_reason stop. -/
def finalChunk (i : String) (cr : Int) (m : String) : ChatResponse :=
  ⟨i, "chat.completion.chunk", cr, m,
   [⟨0, ⟨"", ""⟩, some ⟨"", ""⟩, "stop"⟩], ⟨0, 0, 0⟩⟩

/-- The inner loop over the content fragments of one assistant event:
each non-empty text first triggers the role-only chunk when the role
was not yet sent, then always a content chunk.  Returns the updated
sentRole flag and the chunks emitted, in order. -/
def procFragments (i : String) (cr : Int) (m : String) :
    Bool → List String → Bool × List ChatResponse
  | b, [] => (b, [])
  | b, t :: ts =>
    if t = "" then procFragments i cr m b ts
    else if b then
      let r := procFragments i cr m true ts
      (r.1, contentChunk i cr m t :: r.2)
    else
      let r := procFragments i cr m true ts
      (r.1, roleChunk i cr m :: contentChunk i cr m t :: r.2)

/-- Processing of one parsed line of the event stream. -/
def procEvent (i : String) (cr : Int) (m : String) (sentRole : Bool) :
    StreamEvent → Bool × List ChatResponse
  | StreamEvent.assistant fs => procFragments i cr m sentRole fs
  | StreamEvent.result r =>
    if r ≠ "" ∧ sentRole = false then (true, [fallbackChunk i cr m r])
    else (sentRole, [])
  | StreamEvent.other => (sentRole, [])

/-- The scanner loop: process the events in order, threading the
sentRole flag and concatenating the emitted chunks. -/
def runEvents (i : String) (cr : Int) (m : String) :
    Bool → List StreamEvent → Bool × List ChatResponse
  | b, [] => (b, [])
  | b, e :: es =>
    let r1 := procEvent i cr m b e
    let r2 := runEvents i cr m r1.1 es
    (r2.1, r1.2 ++ r2.2)

/-- One SSE frame of the response body: a data frame holding a JSON
chunk, or the literal terminator line data: [DONE]. -/
inductive Frame where
  | chunk (c : ChatResponse)
  | done
deriving DecidableEq, Repr

/-- handleStreamingRequest after the subprocess started: the frames
written to the response, in order - the loop chunks, then the final
chunk with finish_reason stop, then the terminator. -/
def handleStreamingRequest (i : String) (cr : Int) (m : String)
    (es : List StreamEvent) : List Frame :=
  ((runEvents i cr m false es).2.map Frame.chunk) ++
    [Frame.chunk (finalChunk i cr m), Frame.done]

/-- The chunk held by a frame, if any. -/
def frameChunk? : Frame → Option ChatResponse
  | Frame.chunk c => some c
  | Frame.done => none

/-- The sequence of chunks of a streaming response, terminator frame
dropped. -/
def allChunks (i : String) (cr : Int) (m : String)
    (es : List StreamEvent) : List ChatResponse :=
  (handleStreamingRequest i cr m es).filterMap frameChunk?

/-! ## Handler dispatch (handleChat, main.go lines 136 to 209) -/

/-- The observable outcome of handleChat before any invoker work: an
error response with its HTTP status and the error envelope fields, or
the invocation of one of the two invokers with the assembled inputs.
The body-read failure of io.ReadAll is an IO effect and is merged into
the unparsed-body case; the authentication check precedes both. -/
inductive HandlerOutcome where
  | errorResp (status : Nat) (message : String) (etype : String)
  | invoke (stream : Bool) (systemText : String) (bodyText : String) (model : String)
deriving DecidableEq, Repr

/-- handleChat as a function of the configuration, the Authorization
header, the method, and the parse result of the body (none when the
JSON does not unmarshal).  Mirrors the guard order of the source. -/
def handleChat (apiKey defaultModel auth method : String)
    (req : Option ChatRequest) : HandlerOutcome :=
  if goHasPref auth "Bearer " = false ∨ goTrimPref auth "Bearer " ≠ apiKey then
    HandlerOutcome.errorResp 401 "Invalid API key" "error"
  else if method ≠ "POST" then
    HandlerOutcome.errorResp 405 "Method not allowed" "error"
  else
    match req with
    | none => HandlerOutcome.errorResp 400 "Invalid JSON" "error"
    | some q =>
      let ap := assemblePrompt q.messages
      HandlerOutcome.invoke q.stream ap.1 ap.2 (decideModel q.model defaultModel)

/-! ## Definitions written from the words of the specification

These do not embed main.go; they render the quantitative or ordering
language of the specification claims, to be compared with the source
embedding above. -/

/-- Modelled from the spec words of claim C5: the captured output with
only trailing whitespace removed. -/
def specTrimTrailing (s : String) : String :=
  ⟨(s.data.reverse.dropWhile goIsSpace).reverse⟩

/-- Modelled from the spec words of claim C7: contents joined by a
blank line. -/
def joinBlank : List String → String
  | [] => ""
  | [c] => c
  | c :: c2 :: cs => c ++ "\n\n" ++ joinBlank (c2 :: cs)

/-- The contents of the system messages, in order. -/
def sysContents (msgs : List Msg) : List String :=
  msgs.filterMap fun m => if m.role = "system" then some m.content else none

/-- Concatenation of a list of strings, in order. -/
def strConcat : List String → String
  | [] => ""
  | s :: ss => s ++ strConcat ss

/-- Helper for the blank-line join: the tail rendered with a leading
separator before every content. -/
def tailJoin : List String → String
  | [] => ""
  | c :: cs => "\n\n" ++ c ++ tailJoin cs

/-- The bodyText rendering of one message, from the words of claim C7:
user content followed by a newline, assistant content wrapped in the
bracketed previous-response marker, all other roles ignored. -/
def bodyRender (m : Msg) : String :=
  if m.role = "user" then m.content ++ "\n"
  else if m.role = "assistant" then "[Previous response: " ++ m.content ++ "]\n"
  else ""

/-- Modelled from the words of claim C1 as stated: whenever a frame
list has a first content-bearing chunk, that chunk is immediately
preceded by a role-only chunk carrying the same id. -/
def c1Claimed (fs : List Frame) : Prop :=
  ∀ n c, fs[n]? = some (Frame.chunk c) → (deltaOf c).content ≠ "" →
    (∀ j c2, j < n → fs[j]? = some (Frame.chunk c2) → (deltaOf c2).content = "") →
    ∃ p, 1 ≤ n ∧ fs[n-1]? = some (Frame.chunk p) ∧
      (deltaOf p).role ≠ "" ∧ (deltaOf p).content = "" ∧ p.id = c.id

/-- The amended first-content property: the first content-bearing
chunk either is immediately preceded by a role-only chunk with the
same id, or itself carries the assistant role (the fallback path). -/
def c1Amended (fs : List Frame) : Prop :=
  ∀ n c, fs[n]? = some (Frame.chunk c) → (deltaOf c).content ≠ "" →
    (∀ j c2, j < n → fs[j]? = some (Frame.chunk c2) → (deltaOf c2).content = "") →
    ((deltaOf c).role = "assistant" ∨
      ∃ p, 1 ≤ n ∧ fs[n-1]? = some (Frame.chunk p) ∧
        (deltaOf p).role ≠ "" ∧ (deltaOf p).content = "" ∧ p.id = c.id)

/-- The stream ends with exactly one chunk whose finish_reason is stop,
followed by the literal terminator: every earlier chunk has the empty
finish_reason. -/
def endsStopDone (fs : List Frame) : Prop :=
  ∃ pre fin, fs = pre ++ [Frame.chunk fin, Frame.done] ∧
    finishOf fin = "stop" ∧ ∀ c, Frame.chunk c ∈ pre → finishOf c = ""

/-- No assistant event of the stream carries a non-empty text
fragment. -/
def noAssistantText (es : List StreamEvent) : Bool :=
  es.all fun e =>
    match e with
    | StreamEvent.assistant fs => fs.all (· = "")
    | _ => true

/-- The payload of the first result event with a non-empty result
string, if any. -/
def firstNonemptyResult : List StreamEvent → Option String
  | [] => none
  | StreamEvent.result r :: es =>
    if r ≠ "" then some r else firstNonemptyResult es
  | _ :: es => firstNonemptyResult es

/-! ## Generic string lemmas for the proofs -/

/-- String equality is equality of the character lists. -/
theorem strEq_data {s t : String} : s = t ↔ s.data = t.data := by
  cases s
  cases t
  exact ⟨fun h => by injection h, fun h => congrArg String.mk h⟩

/-- The character list of a concatenation. -/
theorem strData_append (a b : String) : (a ++ b).data = a.data ++ b.data := by
  cases a
  cases b
  rfl

/-- Appending to a non-empty string keeps it non-empty. -/
theorem strNe_empty (s t : String) (h : s ≠ "") : s ++ t ≠ "" := by
  rw [Ne, strEq_data, strData_append] at *
  simp only [List.append_eq_nil]
  intro hc
  exact h (by simp [hc.1])

/-- Appending the empty string on the right. -/
theorem strAppend_empty (s : String) : s ++ "" = s := by
  rw [strEq_data, strData_append]
  simp

/-- Appending the empty string on the left. -/
theorem strEmpty_append (s : String) : "" ++ s = s := by
  rw [strEq_data, strData_append]
  simp

/-- The normalizer never returns the empty string: each prefix branch
returns a literal canonical name, the empty case returns the literal
sonnet, and the pass-through branch is guarded by non-emptiness. -/
theorem normalizeModel_ne_empty (s : String) : normalizeModel s ≠ "" := by
  simp only [normalizeModel]
  split
  · decide
  split
  · decide
  split
  · decide
  split
  · decide
  next h4 => exact h4

/-- Claim C9: for every input string, normalizeModel returns a
non-empty string, so the defaultModel substitution branch in handleChat
never fires: the decided model is always the normalized request
model. -/
theorem normalize_nonempty :
    (∀ s, normalizeModel s ≠ "") ∧
    ∀ rm dm, decideModel rm dm = normalizeModel rm := by
  refine ⟨normalizeModel_ne_empty, fun rm dm => ?_⟩
  simp [decideModel, normalizeModel_ne_empty rm]

/-- Witness for C9 at a concrete unrecognized model name. -/
theorem normalize_nonempty_w :
    normalizeModel "gpt-4" ≠ "" ∧
    decideModel "gpt-4" "opus" = normalizeModel "gpt-4" :=
  ⟨normalize_nonempty.1 "gpt-4", normalize_nonempty.2 "gpt-4" "opus"⟩

/-- Claim C2: the code behaviour at the failing input.  The empty model
string (and a whitespace-only one) normalizes to the hard-coded literal
sonnet, not to the configured default: with CLAUDE_MODEL set to opus
(so defaultModel is opus), the decided model for an empty request model
is sonnet, contradicting the claim, the handleChat comment, and its
dead substitution branch. -/
theorem model_default_bug :
    normalizeModel "" = "sonnet" ∧
    normalizeModel "   " = "sonnet" ∧
    normalizeModel "opus" = "opus" ∧
    decideModel "" "opus" = "sonnet" ∧
    decideModel "" "opus" ≠ "opus" := by
  decide

/-- Claim C3 counterexample: with an assembled prompt of 2 bytes and an
output of 2 bytes, prompt_tokens and completion_tokens are both 0 while
total_tokens is 1, so total_tokens is not the sum of the two
quotients. -/
theorem usage_total_cex :
    (handleNonStreamingRequest "" "ab" "sonnet" "cd" 1 2).usage.promptTokens = 0 ∧
    (handleNonStreamingRequest "" "ab" "sonnet" "cd" 1 2).usage.completionTokens = 0 ∧
    (handleNonStreamingRequest "" "ab" "sonnet" "cd" 1 2).usage.totalTokens = 1 ∧
    (1 : Nat) ≠ 0 + 0 := by
  decide

/-- Claim C3 amended: the usage fields are prompt length divided by 4,
trimmed-output length divided by 4, and the division by 4 applied to
the sum of the two lengths (not the sum of the quotients). -/
theorem usage_fields (sys user model output : String) (nano unix : Int) :
    (handleNonStreamingRequest sys user model output nano unix).usage =
      ⟨(goLen sys + goLen user) / 4, goLen (goTrimSpace output) / 4,
       (goLen sys + goLen user + goLen (goTrimSpace output)) / 4⟩ :=
  rfl

/-- Witness for the amended C3 at a concrete input. -/
theorem usage_fields_w :
    (handleNonStreamingRequest "sy" "use" "sonnet" " out " 1 2).usage =
      ⟨(goLen "sy" + goLen "use") / 4, goLen (goTrimSpace " out ") / 4,
       (goLen "sy" + goLen "use" + goLen (goTrimSpace " out ")) / 4⟩ :=
  usage_fields "sy" "use" "sonnet" " out " 1 2

/-- Claim C4 counterexample: normalizeModel is not idempotent.  The
input claude-claude-haiku normalizes to claude-haiku (one prefix strip,
then no base prefix matches), which normalizes further to haiku. -/
theorem normalize_idem_cex :
    normalizeModel (normalizeModel "claude-claude-haiku") ≠
      normalizeModel "claude-claude-haiku" := by
  decide

/-- Claim C4 amended: normalizing an already-canonical name returns it
unchanged. -/
theorem normalize_canonical_fixed :
    normalizeModel "haiku" = "haiku" ∧
    normalizeModel "sonnet" = "sonnet" ∧
    normalizeModel "opus" = "opus" := by
  decide

/-- Claim C5 counterexample: the code trims leading whitespace too.
For captured output consisting of a space and hi, the message content
is hi, not the claim value (output with only trailing whitespace
trimmed), which keeps the leading space. -/
theorem nonstreaming_trim_cex :
    (handleNonStreamingRequest "" "" "sonnet" " hi" 1 2).choices =
      [⟨0, ⟨"assistant", "hi"⟩, none, "stop"⟩] ∧
    specTrimTrailing " hi" = " hi" ∧
    ("hi" : String) ≠ " hi" := by
  decide

/-- Claim C5 amended: on subprocess success the non-streaming response
has exactly one choice, with finish_reason stop and an assistant
message whose content is the captured output with leading and trailing
whitespace trimmed, and the id field is non-empty. -/
theorem nonstreaming_success_shape (sys user model output : String)
    (nano unix : Int) :
    (handleNonStreamingRequest sys user model output nano unix).choices =
      [⟨0, ⟨"assistant", goTrimSpace output⟩, none, "stop"⟩] ∧
    (handleNonStreamingRequest sys user model output nano unix).id ≠ "" := by
  refine ⟨rfl, ?_⟩
  show ("chatcmpl-" ++ toString nano) ≠ ""
  exact strNe_empty _ _ (by decide)

/-- Witness for the amended C5 at a concrete input. -/
theorem nonstreaming_success_shape_w :
    (handleNonStreamingRequest "s" "u" "sonnet" "hello \n" 7 8).choices =
      [⟨0, ⟨"assistant", goTrimSpace "hello \n"⟩, none, "stop"⟩] ∧
    (handleNonStreamingRequest "s" "u" "sonnet" "hello \n" 7 8).id ≠ "" :=
  nonstreaming_success_shape "s" "u" "sonnet" "hello \n" 7 8

/-! ## Prompt Assembler lemmas (claim C7) -/

/-- The body builder of the message fold: each message appends its
bodyRender text, so the final bodyText is the accumulator followed by
the concatenated renders in request order. -/
theorem foldl_assemble_body (msgs : List Msg) : ∀ s b,
    (msgs.foldl assembleStep (s, b)).2 = b ++ strConcat (msgs.map bodyRender) := by
  induction msgs with
  | nil =>
    intro s b
    simp [strConcat, strAppend_empty]
  | cons m rest ih =>
    intro s b
    rw [List.foldl_cons]
    by_cases h1 : m.role = "system"
    · have hstep : assembleStep (s, b) m =
          (if s = "" then s ++ m.content else s ++ "\n\n" ++ m.content, b) := by
        simp [assembleStep, h1]
      rw [hstep, ih]
      simp only [List.map_cons, strConcat, bodyRender, h1]
      rw [strEq_data]
      simp [strData_append]
    by_cases h2 : m.role = "user"
    · have hstep : assembleStep (s, b) m = (s, b ++ m.content ++ "\n") := by
        simp [assembleStep, h1, h2]
      rw [hstep, ih]
      simp only [List.map_cons, strConcat, bodyRender, h1, h2]
      rw [strEq_data]
      simp [strData_append]
    by_cases h3 : m.role = "assistant"
    · have hstep : assembleStep (s, b) m =
          (s, b ++ "[Previous response: " ++ m.content ++ "]\n") := by
        simp [assembleStep, h1, h2, h3]
      rw [hstep, ih]
      simp only [List.map_cons, strConcat, bodyRender, h1, h2, h3]
      rw [strEq_data]
      simp [strData_append]
    · have hstep : assembleStep (s, b) m = (s, b) := by
        simp [assembleStep, h1, h2, h3]
      rw [hstep, ih]
      simp only [List.map_cons, strConcat, bodyRender, h1, h2, h3]
      rw [strEq_data]
      simp [strData_append]

/-- The blank-line join of a non-empty list is its head followed by the
separator-prefixed tail. -/
theorem joinBlank_cons (cs : List String) : ∀ c,
    joinBlank (c :: cs) = c ++ tailJoin cs := by
  induction cs with
  | nil =>
    intro c
    simp [joinBlank, tailJoin, strAppend_empty]
  | cons c2 cs ih =>
    intro c
    simp only [joinBlank, tailJoin, ih c2]
    rw [strEq_data]
    simp [strData_append]

/-- Once the system builder is non-empty, every further system content
is appended behind a blank-line separator. -/
theorem foldl_assemble_sys_ne (msgs : List Msg) : ∀ s b, s ≠ "" →
    (msgs.foldl assembleStep (s, b)).1 = s ++ tailJoin (sysContents msgs) := by
  induction msgs with
  | nil =>
    intro s b _
    simp [sysContents, tailJoin, strAppend_empty]
  | cons m rest ih =>
    intro s b hs
    rw [List.foldl_cons]
    by_cases h1 : m.role = "system"
    · have hstep : assembleStep (s, b) m = (s ++ "\n\n" ++ m.content, b) := by
        simp [assembleStep, h1, hs]
      rw [hstep, ih _ _ (strNe_empty _ _ (strNe_empty _ _ hs))]
      simp only [sysContents, List.filterMap_cons, h1, if_pos, tailJoin]
      rw [strEq_data]
      simp [strData_append]
    by_cases h2 : m.role = "user"
    · have hstep : assembleStep (s, b) m = (s, b ++ m.content ++ "\n") := by
        simp [assembleStep, h1, h2]
      rw [hstep, ih _ _ hs]
      simp [sysContents, List.filterMap_cons, h1]
    by_cases h3 : m.role = "assistant"
    · have hstep : assembleStep (s, b) m =
          (s, b ++ "[Previous response: " ++ m.content ++ "]\n") := by
        simp [assembleStep, h1, h2, h3]
      rw [hstep, ih _ _ hs]
      simp [sysContents, List.filterMap_cons, h1]
    · have hstep : assembleStep (s, b) m = (s, b) := by
        simp [assembleStep, h1, h2, h3]
      rw [hstep, ih _ _ hs]
      simp [sysContents, List.filterMap_cons, h1]

/-- From the empty system builder, when every system content is
non-empty the built systemText is the blank-line join of the system
contents in order. -/
theorem foldl_assemble_sys (msgs : List Msg) : ∀ b,
    (∀ m ∈ msgs, m.role = "system" → m.content ≠ "") →
    (msgs.foldl assembleStep ("", b)).1 = joinBlank (sysContents msgs) := by
  induction msgs with
  | nil =>
    intro b _
    simp [sysContents, joinBlank]
  | cons m rest ih =>
    intro b h
    rw [List.foldl_cons]
    by_cases h1 : m.role = "system"
    · have hc : m.content ≠ "" := h m (List.mem_cons_self m rest) h1
      have hstep : assembleStep ("", b) m = ("" ++ m.content, b) := by
        simp [assembleStep, h1]
      rw [hstep, strEmpty_append,
          foldl_assemble_sys_ne rest m.content b hc]
      have hsys : sysContents (m :: rest) = m.content :: sysContents rest := by
        simp [sysContents, List.filterMap_cons, h1]
      rw [hsys, joinBlank_cons]
    by_cases h2 : m.role = "user"
    · have hstep : assembleStep ("", b) m = ("", b ++ m.content ++ "\n") := by
        simp [assembleStep, h1, h2]
      rw [hstep, ih _ (fun x hx => h x (List.mem_cons_of_mem m hx))]
      simp [sysContents, List.filterMap_cons, h1]
    by_cases h3 : m.role = "assistant"
    · have hstep : assembleStep ("", b) m =
          ("", b ++ "[Previous response: " ++ m.content ++ "]\n") := by
        simp [assembleStep, h1, h2, h3]
      rw [hstep, ih _ (fun x hx => h x (List.mem_cons_of_mem m hx))]
      simp [sysContents, List.filterMap_cons, h1]
    · have hstep : assembleStep ("", b) m = ("", b) := by
        simp [assembleStep, h1, h2, h3]
      rw [hstep, ih _ (fun x hx => h x (List.mem_cons_of_mem m hx))]
      simp [sysContents, List.filterMap_cons, h1]

/-- Claim C7 counterexample: with an empty first system content the
builder length stays zero, so no separator is written before the
second system content; the blank-line join of the system contents
would carry the separator. -/
theorem system_join_cex :
    (assemblePrompt [⟨"system", ""⟩, ⟨"system", "X"⟩]).1 ≠
      joinBlank (sysContents [⟨"system", ""⟩, ⟨"system", "X"⟩]) := by
  decide

/-- Claim C7 amended: bodyText is the request-order concatenation of
the per-message renders (user content plus newline, assistant content
wrapped in the bracketed previous-response marker, other roles
ignored); when every system content is non-empty, systemText is the
blank-line join of the system contents; and the concrete four-message
example assembles exactly as claimed. -/
theorem prompt_assembler_order (msgs : List Msg)
    (h : ∀ m ∈ msgs, m.role = "system" → m.content ≠ "") :
    (assemblePrompt msgs).2 = strConcat (msgs.map bodyRender) ∧
    (assemblePrompt msgs).1 = joinBlank (sysContents msgs) ∧
    assemblePrompt [⟨"system", "A"⟩, ⟨"user", "B"⟩, ⟨"assistant", "C"⟩, ⟨"user", "D"⟩] =
      ("A", "B\n[Previous response: C]\nD\n") := by
  refine ⟨?_, foldl_assemble_sys msgs "" h, by decide⟩
  rw [assemblePrompt, foldl_assemble_body, strEmpty_append]

/-- Witness for the amended C7 at the concrete four-message list. -/
theorem prompt_assembler_order_w :
    (assemblePrompt [⟨"system", "A"⟩, ⟨"user", "B"⟩, ⟨"assistant", "C"⟩, ⟨"user", "D"⟩]).2 =
      strConcat ([Msg.mk "system" "A", ⟨"user", "B"⟩, ⟨"assistant", "C"⟩, ⟨"user", "D"⟩].map bodyRender) ∧
    (assemblePrompt [⟨"system", "A"⟩, ⟨"user", "B"⟩, ⟨"assistant", "C"⟩, ⟨"user", "D"⟩]).1 =
      joinBlank (sysContents [⟨"system", "A"⟩, ⟨"user", "B"⟩, ⟨"assistant", "C"⟩, ⟨"user", "D"⟩]) ∧
    assemblePrompt [⟨"system", "A"⟩, ⟨"user", "B"⟩, ⟨"assistant", "C"⟩, ⟨"user", "D"⟩] =
      ("A", "B\n[Previous response: C]\nD\n") :=
  prompt_assembler_order _ (by decide)

/-! ## Authentication (claim C8) -/

/-- A string with a verified prefix is that prefix followed by the
trimmed remainder. -/
theorem goHasPref_split (s p : String) (h : goHasPref s p = true) :
    s = p ++ goTrimPref s p := by
  rw [goTrimPref, if_pos h, strEq_data, strData_append]
  obtain ⟨t, ht⟩ := List.isPrefixOf_iff_prefix.mp h
  rw [← ht]
  simp

/-- Claim C8: a request whose Authorization header is not exactly
Bearer followed by the configured secret is answered with status 401
and the error envelope, and no invoker runs. -/
theorem auth_reject (apiKey dm auth method : String) (req : Option ChatRequest)
    (h : auth ≠ "Bearer " ++ apiKey) :
    handleChat apiKey dm auth method req =
      HandlerOutcome.errorResp 401 "Invalid API key" "error" ∧
    ∀ st sys bod mo, handleChat apiKey dm auth method req ≠
      HandlerOutcome.invoke st sys bod mo := by
  have hcond : goHasPref auth "Bearer " = false ∨
      goTrimPref auth "Bearer " ≠ apiKey := by
    cases hb : goHasPref auth "Bearer " with
    | false => exact Or.inl rfl
    | true =>
      refine Or.inr fun he => h ?_
      rw [goHasPref_split auth "Bearer " hb, he]
  have hmain : handleChat apiKey dm auth method req =
      HandlerOutcome.errorResp 401 "Invalid API key" "error" := by
    rw [handleChat.eq_def, if_pos hcond]
  exact ⟨hmain, fun st sys bod mo hev => by rw [hmain] at hev; cases hev⟩

/-- Witness for C8 at a concrete wrong key. -/
theorem auth_reject_w :
    ("Bearer wrong" : String) ≠ "Bearer " ++ "secret" ∧
    handleChat "secret" "sonnet" "Bearer wrong" "POST" none =
      HandlerOutcome.errorResp 401 "Invalid API key" "error" :=
  ⟨by decide, (auth_reject "secret" "sonnet" "Bearer wrong" "POST" none (by decide)).1⟩

/-! ## Streaming state machine lemmas (claims C1, C6, C10) -/

/-- With the role already sent, the fragment loop emits only content
chunks: the flag stays set and every emitted chunk is role-free with
non-empty content. -/
theorem procFragments_true_shape (i : String) (cr : Int) (m : String) :
    ∀ fs, (procFragments i cr m true fs).1 = true ∧
      ∀ c ∈ (procFragments i cr m true fs).2,
        (deltaOf c).role = "" ∧ (deltaOf c).content ≠ "" := by
  intro fs
  induction fs with
  | nil => simp [procFragments]
  | cons t ts ih =>
    by_cases ht : t = ""
    · simpa [procFragments, ht] using ih
    · have heq : procFragments i cr m true (t :: ts) =
          ((procFragments i cr m true ts).1,
            contentChunk i cr m t :: (procFragments i cr m true ts).2) := by
        simp [procFragments, ht]
      rw [heq]
      refine ⟨ih.1, ?_⟩
      intro c hc
      rcases List.mem_cons.mp hc with h | h
      · subst h
        exact ⟨rfl, by simpa [deltaOf, contentChunk] using ht⟩
      · exact ih.2 c h

/-- With the role not yet sent, the fragment loop either emits nothing
and leaves the flag clear, or emits the role-only chunk first, sets the
flag, and follows with role-free non-empty content chunks. -/
theorem procFragments_false_shape (i : String) (cr : Int) (m : String) :
    ∀ fs, procFragments i cr m false fs = (false, []) ∨
      ∃ rest, procFragments i cr m false fs = (true, roleChunk i cr m :: rest) ∧
        ∀ c ∈ rest, (deltaOf c).role = "" ∧ (deltaOf c).content ≠ "" := by
  intro fs
  induction fs with
  | nil => exact Or.inl rfl
  | cons t ts ih =>
    by_cases ht : t = ""
    · simpa [procFragments, ht] using ih
    · right
      refine ⟨contentChunk i cr m t :: (procFragments i cr m true ts).2, ?_, ?_⟩
      · simp [procFragments, ht, (procFragments_true_shape i cr m ts).1]
      · intro c hc
        rcases List.mem_cons.mp hc with h | h
        · subst h
          exact ⟨rfl, by simpa [deltaOf, contentChunk] using ht⟩
        · exact (procFragments_true_shape i cr m ts).2 c h

/-- One event processed with the role already sent keeps the flag set
and emits only role-free non-empty content chunks. -/
theorem procEvent_true_shape (i : String) (cr : Int) (m : String) (e : StreamEvent) :
    (procEvent i cr m true e).1 = true ∧
    ∀ c ∈ (procEvent i cr m true e).2,
      (deltaOf c).role = "" ∧ (deltaOf c).content ≠ "" := by
  cases e with
  | assistant fs => exact procFragments_true_shape i cr m fs
  | result r => simp [procEvent]
  | other => simp [procEvent]

/-- The event loop started with the role already sent keeps the flag
set and emits only role-free non-empty content chunks. -/
theorem runEvents_true_shape (i : String) (cr : Int) (m : String) :
    ∀ es, (runEvents i cr m true es).1 = true ∧
      ∀ c ∈ (runEvents i cr m true es).2,
        (deltaOf c).role = "" ∧ (deltaOf c).content ≠ "" := by
  intro es
  induction es with
  | nil => simp [runEvents]
  | cons e es ih =>
    have hp := procEvent_true_shape i cr m e
    have heq : runEvents i cr m true (e :: es) =
        ((runEvents i cr m ((procEvent i cr m true e).1) es).1,
         (procEvent i cr m true e).2 ++
           (runEvents i cr m ((procEvent i cr m true e).1) es).2) := by
      simp [runEvents]
    rw [heq, hp.1]
    refine ⟨ih.1, ?_⟩
    intro c hc
    rcases List.mem_append.mp hc with h | h
    · exact hp.2 c h
    · exact ih.2 c h

/-- Shape of the chunks of a whole streaming loop: either no chunk at
all (flag still clear), or a first chunk carrying the assistant role
followed only by role-free non-empty content chunks (flag set). -/
theorem runEvents_false_shape (i : String) (cr : Int) (m : String) :
    ∀ es, runEvents i cr m false es = (false, []) ∨
      ∃ c0 rest, runEvents i cr m false es = (true, c0 :: rest) ∧
        (deltaOf c0).role = "assistant" ∧
        ∀ c ∈ rest, (deltaOf c).role = "" ∧ (deltaOf c).content ≠ "" := by
  intro es
  induction es with
  | nil => exact Or.inl rfl
  | cons e es ih =>
    have hsplit : ∀ (b2 : Bool) (cs : List ChatResponse),
        procEvent i cr m false e = (b2, cs) →
        runEvents i cr m false (e :: es) =
          ((runEvents i cr m b2 es).1,
           cs ++ (runEvents i cr m b2 es).2) := by
      intro b2 cs hp
      simp [runEvents, hp]
    have hskip : procEvent i cr m false e = (false, []) →
        (runEvents i cr m false (e :: es) = (false, []) ∨
          ∃ c0 rest, runEvents i cr m false (e :: es) = (true, c0 :: rest) ∧
            (deltaOf c0).role = "assistant" ∧
            ∀ c ∈ rest, (deltaOf c).role = "" ∧ (deltaOf c).content ≠ "") := by
      intro hp
      rw [hsplit false [] hp]
      rcases ih with h | ⟨c0, rest, h, hrole, hrest⟩
      · left
        rw [h]
        rfl
      · right
        exact ⟨c0, rest, by rw [h]; rfl, hrole, hrest⟩
    cases e with
    | other => exact hskip rfl
    | result r =>
      by_cases hr : r = ""
      · exact hskip (by simp [procEvent, hr])
      · rw [hsplit true [fallbackChunk i cr m r] (by simp [procEvent, hr])]
        right
        refine ⟨fallbackChunk i cr m r, (runEvents i cr m true es).2, ?_, rfl, ?_⟩
        · rw [(runEvents_true_shape i cr m es).1]
          rfl
        · exact (runEvents_true_shape i cr m es).2
    | assistant fs =>
      rcases procFragments_false_shape i cr m fs with hf | ⟨rest1, hf, hrest1⟩
      · exact hskip hf
      · rw [hsplit true (roleChunk i cr m :: rest1) hf]
        right
        refine ⟨roleChunk i cr m, rest1 ++ (runEvents i cr m true es).2, ?_, rfl, ?_⟩
        · rw [(runEvents_true_shape i cr m es).1]
          rfl
        · intro c hc
          rcases List.mem_append.mp hc with h | h
          · exact hrest1 c h
          · exact (runEvents_true_shape i cr m es).2 c h

/-- Every chunk of the fragment loop carries the stream id and the
empty finish_reason. -/
theorem procFragments_meta (i : String) (cr : Int) (m : String) :
    ∀ fs b, ∀ c ∈ (procFragments i cr m b fs).2, c.id = i ∧ finishOf c = "" := by
  intro fs
  induction fs with
  | nil =>
    intro b c hc
    simp [procFragments] at hc
  | cons t ts ih =>
    intro b c hc
    by_cases ht : t = ""
    · rw [show procFragments i cr m b (t :: ts) = procFragments i cr m b ts from by
        simp [procFragments, ht]] at hc
      exact ih b c hc
    · cases b with
      | true =>
        rw [show procFragments i cr m true (t :: ts) =
            ((procFragments i cr m true ts).1,
              contentChunk i cr m t :: (procFragments i cr m true ts).2) from by
          simp [procFragments, ht]] at hc
        rcases List.mem_cons.mp hc with h | h
        · subst h
          exact ⟨rfl, rfl⟩
        · exact ih true c h
      | false =>
        rw [show procFragments i cr m false (t :: ts) =
            ((procFragments i cr m true ts).1,
              roleChunk i cr m :: contentChunk i cr m t ::
                (procFragments i cr m true ts).2) from by
          simp [procFragments, ht]] at hc
        rcases List.mem_cons.mp hc with h | h
        · subst h
          exact ⟨rfl, rfl⟩
        rcases List.mem_cons.mp h with h2 | h2
        · subst h2
          exact ⟨rfl, rfl⟩
        · exact ih true c h2

/-- Every chunk of one processed event carries the stream id and the
empty finish_reason. -/
theorem procEvent_meta (i : String) (cr : Int) (m : String) (b : Bool) (e : StreamEvent) :
    ∀ c ∈ (procEvent i cr m b e).2, c.id = i ∧ finishOf c = "" := by
  cases e with
  | assistant fs => exact procFragments_meta i cr m fs b
  | result r =>
    intro c hc
    simp only [procEvent] at hc
    split at hc
    · rw [List.mem_singleton.mp hc]
      exact ⟨rfl, rfl⟩
    · simp at hc
  | other =>
    intro c hc
    simp [procEvent] at hc

/-- Every chunk of the event loop carries the stream id and the empty
finish_reason. -/
theorem runEvents_meta (i : String) (cr : Int) (m : String) :
    ∀ es b, ∀ c ∈ (runEvents i cr m b es).2, c.id = i ∧ finishOf c = "" := by
  intro es
  induction es with
  | nil =>
    intro b c hc
    simp [runEvents] at hc
  | cons e es ih =>
    intro b c hc
    rw [show runEvents i cr m b (e :: es) =
        ((runEvents i cr m ((procEvent i cr m b e).1) es).1,
         (procEvent i cr m b e).2 ++
           (runEvents i cr m ((procEvent i cr m b e).1) es).2) from by
      simp [runEvents]] at hc
    rcases List.mem_append.mp hc with h | h
    · exact procEvent_meta i cr m b e c h
    · exact ih _ c h

/-- The chunk sequence of a streaming response is the loop chunks
followed by the final chunk. -/
theorem allChunks_eq (i : String) (cr : Int) (m : String) (es : List StreamEvent) :
    allChunks i cr m es = (runEvents i cr m false es).2 ++ [finalChunk i cr m] := by
  rw [allChunks, handleStreamingRequest, List.filterMap_append]
  congr 1
  induction (runEvents i cr m false es).2 with
  | nil => rfl
  | cons a l ih => simp [List.map_cons, List.filterMap_cons, frameChunk?, ih]

/-- Every chunk after the head of the stream is role-free. -/
theorem allChunks_tail_role (i : String) (cr : Int) (m : String)
    (es : List StreamEvent) :
    ∀ k c, 1 ≤ k → (allChunks i cr m es)[k]? = some c → (deltaOf c).role = "" := by
  intro k c hk hget
  rw [allChunks_eq] at hget
  rcases runEvents_false_shape i cr m es with h | ⟨c0, rest, h, hrole, hrest⟩
  · rcases k with _ | k2
    · omega
    · rw [h] at hget
      simp at hget
  · rcases k with _ | k2
    · omega
    · rw [h] at hget
      have hget2 : (rest ++ [finalChunk i cr m])[k2]? = some c := by
        simpa using hget
      rcases List.mem_append.mp (List.getElem?_mem hget2) with hm | hm
      · exact (hrest c hm).1
      · rw [List.mem_singleton.mp hm]
        rfl

/-- Claim C10: in every streaming response at most one chunk carries a
non-empty delta role, and once any role-bearing or content-bearing
chunk has been emitted, no later chunk carries a role. -/
theorem streaming_role_once (i : String) (cr : Int) (m : String) (es : List StreamEvent) :
    ((allChunks i cr m es).filter (fun c => (deltaOf c).role ≠ "")).length ≤ 1 ∧
    ∀ (a b : Nat) (ca cb : ChatResponse), a < b →
      (allChunks i cr m es)[a]? = some ca →
      ((deltaOf ca).role ≠ "" ∨ (deltaOf ca).content ≠ "") →
      (allChunks i cr m es)[b]? = some cb → (deltaOf cb).role = "" := by
  constructor
  · rw [allChunks_eq]
    rcases runEvents_false_shape i cr m es with h | ⟨c0, rest, h, hrole, hrest⟩
    · rw [h]
      have hnil : ((false, ([] : List ChatResponse)).2 ++ [finalChunk i cr m]).filter
          (fun c => (deltaOf c).role ≠ "") = [] := by
        apply List.filter_eq_nil_iff.mpr
        intro a ha
        simp only [List.nil_append, List.mem_singleton] at ha
        subst ha
        simp [deltaOf, finalChunk]
      rw [hnil]
      simp
    · rw [h]
      have hnil : (rest ++ [finalChunk i cr m]).filter
          (fun c => (deltaOf c).role ≠ "") = [] := by
        apply List.filter_eq_nil_iff.mpr
        intro a ha
        rcases List.mem_append.mp ha with hm | hm
        · simp [(hrest a hm).1]
        · rw [List.mem_singleton.mp hm]
          simp [deltaOf, finalChunk]
      rw [show ((true, c0 :: rest).2 ++ [finalChunk i cr m]) =
          c0 :: (rest ++ [finalChunk i cr m]) from rfl,
        List.filter_cons]
      split
      · rw [hnil]
        simp
      · rw [hnil]
        simp
  · intro a b ca cb hab hga hca hgb
    exact allChunks_tail_role i cr m es b cb (by omega) hgb

/-- Witness for C10: in the stream for one assistant event, the chunk
after the role-only chunk is role-free. -/
theorem streaming_role_once_w :
    (allChunks "c" 0 "m" [StreamEvent.assistant ["hi"]])[0]? =
      some (roleChunk "c" 0 "m") ∧
    (allChunks "c" 0 "m" [StreamEvent.assistant ["hi"]])[1]? =
      some (contentChunk "c" 0 "m" "hi") ∧
    (deltaOf (contentChunk "c" 0 "m" "hi")).role = "" :=
  ⟨by decide, by decide,
    (streaming_role_once "c" 0 "m" [StreamEvent.assistant ["hi"]]).2 0 1
      (roleChunk "c" 0 "m") (contentChunk "c" 0 "m" "hi") (by decide) (by decide)
      (Or.inl (by decide)) (by decide)⟩

/-- The fragment loop emits nothing when every fragment is empty. -/
theorem procFragments_allEmpty (i : String) (cr : Int) (m : String) :
    ∀ fs b, (∀ t ∈ fs, t = "") → procFragments i cr m b fs = (b, []) := by
  intro fs
  induction fs with
  | nil =>
    intro b _
    rfl
  | cons t ts ih =>
    intro b h
    have ht : t = "" := h t (List.mem_cons_self t ts)
    rw [show procFragments i cr m b (t :: ts) = procFragments i cr m b ts from by
      simp [procFragments, ht]]
    exact ih b (fun x hx => h x (List.mem_cons_of_mem t hx))

/-- With the role already sent and no assistant text anywhere, the
rest of the loop emits nothing: content emission needs assistant text
and the fallback is guarded by the clear flag. -/
theorem runEvents_noAssist_true (i : String) (cr : Int) (m : String) :
    ∀ es, noAssistantText es = true → runEvents i cr m true es = (true, []) := by
  intro es
  induction es with
  | nil =>
    intro
    rfl
  | cons e es ih =>
    intro h
    simp only [noAssistantText, List.all_cons, Bool.and_eq_true] at h
    obtain ⟨he, hes⟩ := h
    have hsplit : ∀ (b2 : Bool) (cs : List ChatResponse),
        procEvent i cr m true e = (b2, cs) →
        runEvents i cr m true (e :: es) =
          ((runEvents i cr m b2 es).1, cs ++ (runEvents i cr m b2 es).2) := by
      intro b2 cs hp
      simp [runEvents, hp]
    cases e with
    | assistant fs =>
      have hfs : ∀ t ∈ fs, t = "" := by
        intro t ht
        simpa using (List.all_eq_true.mp he) t ht
      rw [hsplit true [] (procFragments_allEmpty i cr m fs true hfs), ih hes]
      rfl
    | result r =>
      rw [hsplit true [] (by simp [procEvent]), ih hes]
      rfl
    | other =>
      rw [hsplit true [] rfl, ih hes]
      rfl

/-- The whole loop on a stream with no assistant text and a first
non-empty result emits exactly the one fallback chunk. -/
theorem runEvents_fallback (i : String) (cr : Int) (m : String) :
    ∀ es r, noAssistantText es = true →
      firstNonemptyResult es = some r →
      runEvents i cr m false es = (true, [fallbackChunk i cr m r]) := by
  intro es
  induction es with
  | nil =>
    intro r _ h2
    simp [firstNonemptyResult] at h2
  | cons e es ih =>
    intro r h1 h2
    simp only [noAssistantText, List.all_cons, Bool.and_eq_true] at h1
    obtain ⟨he, hes⟩ := h1
    have hsplit : ∀ (b2 : Bool) (cs : List ChatResponse),
        procEvent i cr m false e = (b2, cs) →
        runEvents i cr m false (e :: es) =
          ((runEvents i cr m b2 es).1, cs ++ (runEvents i cr m b2 es).2) := by
      intro b2 cs hp
      simp [runEvents, hp]
    cases e with
    | assistant fs =>
      have hfs : ∀ t ∈ fs, t = "" := by
        intro t ht
        simpa using (List.all_eq_true.mp he) t ht
      rw [hsplit false [] (procFragments_allEmpty i cr m fs false hfs),
        ih r hes (by simpa [firstNonemptyResult] using h2)]
      rfl
    | other =>
      rw [hsplit false [] rfl,
        ih r hes (by simpa [firstNonemptyResult] using h2)]
      rfl
    | result r0 =>
      by_cases hr0 : r0 = ""
      · rw [hsplit false [] (by simp [procEvent, hr0]),
          ih r hes (by simpa [firstNonemptyResult, hr0] using h2)]
        rfl
      · have h2x : r0 = r := by
          simpa [firstNonemptyResult, hr0] using h2
        rw [hsplit true [fallbackChunk i cr m r0] (by simp [procEvent, hr0]),
          runEvents_noAssist_true i cr m es hes, h2x]
        rfl

/-- Claim C6: when the backend emits no assistant event with non-empty
text but does emit a result event with a non-empty payload, the stream
is exactly one fallback chunk carrying both the assistant role and the
full result, then the terminal chunk, then the terminator. -/
theorem streaming_fallback (i : String) (cr : Int) (m : String)
    (es : List StreamEvent) (r : String)
    (h1 : noAssistantText es = true)
    (h2 : firstNonemptyResult es = some r) :
    handleStreamingRequest i cr m es =
      [Frame.chunk (fallbackChunk i cr m r),
       Frame.chunk (finalChunk i cr m), Frame.done] ∧
    (deltaOf (fallbackChunk i cr m r)).role = "assistant" ∧
    (deltaOf (fallbackChunk i cr m r)).content = r := by
  refine ⟨?_, rfl, rfl⟩
  simp only [handleStreamingRequest]
  rw [runEvents_fallback i cr m es r h1 h2]
  rfl

/-- Witness for C6 at a concrete result-only stream. -/
theorem streaming_fallback_w :
    noAssistantText [StreamEvent.assistant [""], StreamEvent.result "",
      StreamEvent.result "hello"] = true ∧
    firstNonemptyResult [StreamEvent.assistant [""], StreamEvent.result "",
      StreamEvent.result "hello"] = some "hello" ∧
    handleStreamingRequest "c" 0 "m" [StreamEvent.assistant [""],
      StreamEvent.result "", StreamEvent.result "hello"] =
      [Frame.chunk (fallbackChunk "c" 0 "m" "hello"),
       Frame.chunk (finalChunk "c" 0 "m"), Frame.done] :=
  ⟨by decide, by decide,
    (streaming_fallback "c" 0 "m" [StreamEvent.assistant [""],
      StreamEvent.result "", StreamEvent.result "hello"] "hello"
      (by decide) (by decide)).1⟩

/-- Claim C1 counterexample: on a result-only stream the first (and
only) content-bearing chunk is the fallback chunk at position zero, so
it is not immediately preceded by a role-only chunk. -/
theorem streaming_first_content_cex :
    ¬ c1Claimed (handleStreamingRequest "chatcmpl-1" 0 "sonnet"
        [StreamEvent.result "hi"]) := by
  intro h
  rcases h 0 (fallbackChunk "chatcmpl-1" 0 "sonnet" "hi") (by decide) (by decide)
      (fun j c2 hj _ => absurd hj (by omega)) with ⟨p, h1, _⟩
  omega

/-- Claim C1 amended: in every stream the first content-bearing chunk
either is immediately preceded by a role-only chunk with the same id,
or itself carries the assistant role (the fallback path); and the
stream ends with exactly one chunk whose finish_reason is stop,
followed by the terminator. -/
theorem streaming_chunk_ordering (i : String) (cr : Int) (m : String)
    (es : List StreamEvent) :
    c1Amended (handleStreamingRequest i cr m es) ∧
    endsStopDone (handleStreamingRequest i cr m es) := by
  refine ⟨?_, ?_⟩
  · intro n c hget hc hfirst
    rcases runEvents_false_shape i cr m es with hsh | ⟨c0, rest, hsh, hrole, hrest⟩
    · exfalso
      have hfs : handleStreamingRequest i cr m es =
          [Frame.chunk (finalChunk i cr m), Frame.done] := by
        simp only [handleStreamingRequest]
        rw [hsh]
        rfl
      rw [hfs] at hget
      rcases n with _ | _ | n2
      · simp only [List.getElem?_cons_zero, Option.some.injEq,
          Frame.chunk.injEq] at hget
        subst hget
        exact hc rfl
      · simp at hget
      · simp at hget
    · have h2 : (runEvents i cr m false es).2 = c0 :: rest := by rw [hsh]
      have hfs : handleStreamingRequest i cr m es =
          Frame.chunk c0 :: (rest.map Frame.chunk ++
            [Frame.chunk (finalChunk i cr m), Frame.done]) := by
        simp only [handleStreamingRequest]
        rw [h2]
        rfl
      have hid0 : c0.id = i :=
        (runEvents_meta i cr m es false c0 (by rw [h2]; exact List.mem_cons_self _ _)).1
      by_cases h0 : (deltaOf c0).content = ""
      · rcases n with _ | _ | n2
        · exfalso
          rw [hfs] at hget
          simp only [List.getElem?_cons_zero, Option.some.injEq,
            Frame.chunk.injEq] at hget
          subst hget
          exact hc h0
        · cases rest with
          | nil =>
            exfalso
            rw [hfs] at hget
            simp only [List.map_nil, List.nil_append, List.getElem?_cons_succ,
              List.getElem?_cons_zero, Option.some.injEq, Frame.chunk.injEq] at hget
            subst hget
            exact hc rfl
          | cons r1 rest2 =>
            right
            rw [hfs] at hget
            simp only [List.map_cons, List.cons_append, List.getElem?_cons_succ,
              List.getElem?_cons_zero, Option.some.injEq, Frame.chunk.injEq] at hget
            have hidr1 : r1.id = i :=
              (runEvents_meta i cr m es false r1 (by rw [h2]; simp)).1
            refine ⟨c0, le_refl 1, ?_, ?_, h0, ?_⟩
            · rw [hfs]
              simp
            · rw [hrole]
              decide
            · rw [hid0, ← hget, hidr1]
        · exfalso
          cases rest with
          | nil =>
            rw [hfs] at hget
            simp only [List.map_nil, List.nil_append,
              List.getElem?_cons_succ] at hget
            rcases n2 with _ | n3
            · simp at hget
            · simp at hget
          | cons r1 rest2 =>
            have hr1 : (deltaOf r1).content ≠ "" := (hrest r1 (by simp)).2
            have hget1 : (handleStreamingRequest i cr m es)[1]? =
                some (Frame.chunk r1) := by
              rw [hfs]
              simp only [List.map_cons, List.cons_append,
                List.getElem?_cons_succ, List.getElem?_cons_zero]
            exact hr1 (hfirst 1 r1 (by omega) hget1)
      · rcases n with _ | n2
        · rw [hfs] at hget
          simp only [List.getElem?_cons_zero, Option.some.injEq,
            Frame.chunk.injEq] at hget
          subst hget
          exact Or.inl hrole
        · exfalso
          have hget0 : (handleStreamingRequest i cr m es)[0]? =
              some (Frame.chunk c0) := by
            rw [hfs]
            simp only [List.getElem?_cons_zero]
          exact h0 (hfirst 0 c0 (by omega) hget0)
  · refine ⟨(runEvents i cr m false es).2.map Frame.chunk, finalChunk i cr m,
      rfl, rfl, ?_⟩
    intro c hcmem
    rcases List.mem_map.mp hcmem with ⟨c2, hc2, hc2eq⟩
    have hcc : c2 = c := by injection hc2eq
    rw [← hcc]
    exact (runEvents_meta i cr m es false c2 hc2).2

/-- Witness for the amended C1 at a concrete result-only stream. -/
theorem streaming_chunk_ordering_w :
    c1Amended (handleStreamingRequest "c" 0 "m" [StreamEvent.result "hi"]) ∧
    endsStopDone (handleStreamingRequest "c" 0 "m" [StreamEvent.result "hi"]) :=
  streaming_chunk_ordering "c" 0 "m" [StreamEvent.result "hi"]
